import Mathlib

/-!
Shallow embedding of the secfs virtual filesystem core (final revision:
`path.go`, `file.go`/part_018, the `secfs` facade in `fs.go`, and
`internal/backend/backend.go`/part_009).

Modelling conventions:
* Byte slices are `List Nat`; Go maps are association lists with unique keys.
* The Kubernetes secret store (reached through the fake clientset in tests)
  is a finite map from `(namespace, secretName)` to a secret record holding
  the key/value data map and the secfs ownership-annotation flag (`managed`).
* The backend is modelled in its default configuration (empty name prefix and
  suffix, annotation checking enabled), which is how `secfs.New` builds it.
* Errors are a single inductive type; the Go code routes `syscall` errors
  through `wrapPathError`/`wrapLinkError` into `fs.ErrExist`/`fs.ErrNotExist`
  and callers test with `errors.Is`, which identifies `ENOENT` with
  `ErrNotExist` and `EEXIST` with `ErrExist`; the model therefore uses one
  constructor for each class.  Timestamps, loggers and the request timeout
  have no bearing on any claim and are omitted.
* A Go method that mutates the backend is modelled as a function returning
  the new store in `Except`; returning `.error e` corresponds to the Go
  method returning the error before (or instead of) any store mutation.
-/

namespace Secfs

/-- Error values, covering the syscall errors, afero errors and secfs
sentinel errors that the embedded code can produce. -/
inductive Err where
  | einval
  | enoent
  | eexist
  | eisdir
  | enotdir
  | enotempty
  | ebadf
  | fileClosed
  | notManaged
  | moveCrossNamespace
  | moveConvert
  | negativePosition
  | invalidWhence
  deriving DecidableEq, Repr

/-- Bytes of a secret value (`[]byte`). -/
abbrev Bytes := List Nat

/-- Lookup in a Go map modelled as an association list. -/
def lookupA {κ α : Type} [DecidableEq κ] : List (κ × α) → κ → Option α
  | [], _ => none
  | (k0, v0) :: m, k => if k = k0 then some v0 else lookupA m k

/-- Insertion/update in a Go map modelled as an association list
(`m[k] = v`): replaces the binding in place, appends if absent. -/
def insertA {κ α : Type} [DecidableEq κ] : List (κ × α) → κ → α → List (κ × α)
  | [], k, v => [(k, v)]
  | (k0, v0) :: m, k, v => if k = k0 then (k0, v) :: m else (k0, v0) :: insertA m k v

/-- Deletion from a Go map modelled as an association list (`delete(m, k)`). -/
def eraseA {κ α : Type} [DecidableEq κ] : List (κ × α) → κ → List (κ × α)
  | [], _ => []
  | (k0, v0) :: m, k => if k = k0 then eraseA m k else (k0, v0) :: eraseA m k

/-- A stored Kubernetes secret: its data map plus whether it carries the
secfs ownership annotation (`secfs: v1`). -/
structure KSecret where
  data : List (String × Bytes)
  managed : Bool
  deriving DecidableEq, Repr

/-- The durable store behind the backend: `(namespace, secretName) ↦ secret`. -/
abbrev Store := List ((String × String) × KSecret)

/-- Kubernetes `Secrets(ns).Get(name)` against the store. -/
def storeLookup (st : Store) (ns sec : String) : Option KSecret :=
  lookupA st (ns, sec)

/-- Store after creating or fully replacing the secret `(ns, sec)`. -/
def storeSet (st : Store) (ns sec : String) (s : KSecret) : Store :=
  insertA st (ns, sec) s

/-- Store after deleting the secret `(ns, sec)`. -/
def storeErase (st : Store) (ns sec : String) : Store :=
  eraseA st (ns, sec)

/-- `secretPath` from `path.go` (the `namespace` field is renamed `ns`
because `namespace` is a Lean keyword). -/
structure secretPath where
  ns : String
  secret : String
  key : String
  isDir : Bool
  deriving DecidableEq, Repr

/-- Go `strings.Trim(s, "/")` on the character list: removes all leading and
trailing occurrences of the cutset character. -/
def trimChar (c : Char) (cs : List Char) : List Char :=
  ((cs.dropWhile (fun x => x = c)).reverse.dropWhile (fun x => x = c)).reverse

/-- Go `strings.Split` on a single-character separator: `splitChars c cs`
returns the substrings between occurrences of `c` (empty substrings kept,
and `splitChars c [] = [[]]`, matching `strings.Split("", sep) = [""]`). -/
def splitChars (c : Char) : List Char → List (List Char)
  | [] => [[]]
  | x :: cs =>
    match splitChars c cs with
    | [] => [[]]
    | s :: ss => if x = c then [] :: s :: ss else (x :: s) :: ss

/-- `newSecretPath` from `path.go`: trim slashes, split on `/`, require 2 or
3 parts (`len(parts) < 2 || len(parts) > 3` is `EINVAL`); 2 parts classify
as directory, 3 parts carry a key.  The source checks the length and then
indexes `parts`; matching on the list shape is the same function. -/
def newSecretPath (name : String) : Except Err secretPath :=
  match splitChars '/' (trimChar '/' name.toList) with
  | [a, b] => .ok { ns := String.mk a, secret := String.mk b, key := "", isDir := true }
  | [a, b, c] => .ok { ns := String.mk a, secret := String.mk b, key := String.mk c, isDir := false }
  | _ => .error .einval

/-- `File` from part_018 (the final revision, with a seek position).  The
`name`, `mtime`, `mode`, `TLS` and mutex fields play no role in any claim
and are omitted; `mode` is derived from `spath.isDir` where needed. -/
structure File where
  spath : secretPath
  key : String
  value : Bytes
  data : List (String × Bytes)
  readonly : Bool
  closed : Bool
  delete : Bool
  pos : Nat
  deriving DecidableEq, Repr

/-- `newFile` from part_018: parse the path and build a fresh read-only
handle with empty value and data. -/
def newFile (name : String) : Except Err File :=
  match newSecretPath name with
  | .error e => .error e
  | .ok p =>
      .ok { spath := p, key := p.key, value := [], data := [],
            readonly := true, closed := false, delete := false, pos := 0 }

/-- `backend.get` (lowercase) from `backend.go`: Kubernetes `Get` plus the
nil-data initialisation and the ownership-annotation check.  A missing
secret surfaces as the not-found error, an unmanaged one as `ErrNotManaged`. -/
def bget (st : Store) (ns sec : String) : Except Err KSecret :=
  match storeLookup st ns sec with
  | none => .error .enoent
  | some ks => if ks.managed then .ok ks else .error .notManaged

/-- `Backend.Get` from `backend.go`: `b.get` with not-found mapped to
`ENOENT`, then `SetData` on the handle. -/
def bGet (st : Store) (f : File) : Except Err File :=
  match bget st f.spath.ns f.spath.secret with
  | .error e => .error e
  | .ok ks => .ok { f with data := ks.data }

/-- `Backend.Update` from `backend.go`: re-read the secret, then either
delete the handle's key from its data map or set it to the handle's value,
and write the secret back. -/
def bUpdate (st : Store) (f : File) : Except Err Store :=
  match bget st f.spath.ns f.spath.secret with
  | .error e => .error e
  | .ok ks =>
      let d := if f.delete then eraseA ks.data f.key else insertA ks.data f.key f.value
      .ok (storeSet st f.spath.ns f.spath.secret { ks with data := d })

/-- `Backend.Create` from `backend.go`: create a new managed secret carrying
the handle's data map; the Kubernetes API rejects an existing name. -/
def bCreate (st : Store) (f : File) : Except Err Store :=
  match storeLookup st f.spath.ns f.spath.secret with
  | some _ => .error .eexist
  | none => .ok (storeSet st f.spath.ns f.spath.secret { data := f.data, managed := true })

/-- `Backend.Delete` from `backend.go`: idempotent delete — a missing secret
is not an error; otherwise the secret is removed. -/
def bDelete (st : Store) (f : File) : Except Err Store :=
  match bget st f.spath.ns f.spath.secret with
  | .error .enoent => .ok st
  | .error e => .error e
  | .ok _ => .ok (storeErase st f.spath.ns f.spath.secret)

/-- `Backend.Rename` from `backend.go`/part_009: fail not-found if the old
secret is missing, fail `EEXIST` if the new one exists, otherwise create the
new secret with the old secret's content and delete the old one. -/
def bRename (st : Store) (o n : secretPath) : Except Err Store :=
  match bget st o.ns o.secret with
  | .error .enoent => .error .enoent
  | .error e => .error e
  | .ok s =>
      match bget st n.ns n.secret with
      | .ok _ => .error .eexist
      | .error .enoent => .ok (storeErase (storeSet st n.ns n.secret s) o.ns o.secret)
      | .error e => .error e

/-- `Open` from part_018: build the handle read-only, load the secret via
`Backend.Get`; a directory handle is returned as is, a leaf requires its key
to be present in the data map and takes that key's value. -/
def Open (st : Store) (name : String) : Except Err File :=
  match newFile name with
  | .error e => .error e
  | .ok f0 =>
      match bGet st f0 with
      | .error e => .error e
      | .ok f =>
          if f.spath.isDir then .ok f
          else
            match lookupA f.data f.key with
            | none => .error .enoent
            | some v => .ok { f with value := v }

/-- `FileCreate` from part_018 / `file.go` ("create a new or truncated
file", per `os.Create`): reject directory paths with `EISDIR`, map any
`Backend.Get` failure to `ENOENT`, then unconditionally set the key to the
empty value in the data map and flush via `Backend.Update`.  Note there is
no existing-key check: an existing key is truncated. -/
def FileCreate (st : Store) (name : String) : Except Err (File × Store) :=
  match newFile name with
  | .error e => .error e
  | .ok f0 =>
      let f1 := { f0 with readonly := false }
      if f1.spath.isDir then .error .eisdir
      else
        match bGet st f1 with
        | .error _ => .error .enoent
        | .ok f2 =>
            let f3 := { f2 with data := insertA f2.data f2.key ([] : Bytes) }
            match bUpdate st f3 with
            | .error e => .error e
            | .ok st1 => .ok (f3, st1)

/-- `File.validateRO` from part_018 (final revision): the closed check comes
first, then the directory check. -/
def File.validateRO (f : File) : Option Err :=
  if f.closed then some .fileClosed
  else if f.spath.isDir then some .eisdir
  else none

/-- `File.validateRO` from the `file.go` revision: the directory check comes
first, then the closed check. -/
def File.validateROMid (f : File) : Option Err :=
  if f.spath.isDir then some .eisdir
  else if f.closed then some .fileClosed
  else none

/-- `File.validateRW` from part_018: `validateRO`, then reject read-only
handles with `EBADF`. -/
def File.validateRW (f : File) : Option Err :=
  match f.validateRO with
  | some e => some e
  | none => if f.readonly then some .ebadf else none

/-- `File.Read` from part_018: `bytes.Reader` positioned at `f.pos` (the
position is a natural number, so the initial `Seek(f.pos, SeekStart)` never
fails).  `bytes.Reader.Read` returns `(0, io.EOF)` when the position is at
or past the end, and otherwise copies `min(len(p), remaining)` bytes with a
nil error; the position advances by the bytes read.  The result carries the
bytes read and whether the returned error was `io.EOF`. -/
def File.Read (f : File) (plen : Nat) : Except Err (File × Bytes × Bool) :=
  match f.validateRO with
  | some e => .error e
  | none =>
      if f.value.length ≤ f.pos then .ok (f, [], true)
      else
        let bs := (f.value.drop f.pos).take plen
        .ok ({ f with pos := f.pos + bs.length }, bs, false)

/-- `File.ReadAt` from part_018: `bytes.Reader.ReadAt` ignores the handle
position; an offset at or past the end yields `(0, io.EOF)`, and a partial
fill yields `io.EOF` alongside the bytes read (offsets are modelled as
naturals; a negative offset errors in Go before touching the value). -/
def File.ReadAt (f : File) (plen off : Nat) : Except Err (Bytes × Bool) :=
  match f.validateRO with
  | some e => .error e
  | none =>
      if f.value.length ≤ off then .ok ([], true)
      else
        let bs := (f.value.drop off).take plen
        .ok (bs, bs.length < plen)

/-- `File.Seek` from part_018: `bytes.Reader.Seek` with whence start (0),
current (1) or end (2); a negative resulting position or an invalid whence
is an error, otherwise the handle position becomes the absolute position. -/
def File.Seek (f : File) (offset : Int) (whence : Nat) : Except Err (File × Int) :=
  match f.validateRO with
  | some e => .error e
  | none =>
      match whence with
      | 0 =>
          if offset < 0 then .error .negativePosition
          else .ok ({ f with pos := offset.toNat }, offset)
      | 1 =>
          let abs : Int := (f.pos : Int) + offset
          if abs < 0 then .error .negativePosition
          else .ok ({ f with pos := abs.toNat }, abs)
      | 2 =>
          let abs : Int := (f.value.length : Int) + offset
          if abs < 0 then .error .negativePosition
          else .ok ({ f with pos := abs.toNat }, abs)
      | _ => .error .invalidWhence

/-- `File.WriteAt` from part_018: grow the value to `off + len(p)` if needed
(the grown region is zero-filled — fresh Go allocations are zeroed and the
value buffer is always allocated exactly, so the capacity branch is the one
taken), then copy `p` at `off`; returns `len(p)` (offsets are modelled as
naturals; a negative offset panics in Go). -/
def File.WriteAt (f : File) (p : Bytes) (off : Nat) : Except Err (File × Nat) :=
  match f.validateRW with
  | some e => .error e
  | none =>
      let expLen := off + p.length
      let v0 := if f.value.length < expLen
                then f.value ++ List.replicate (expLen - f.value.length) 0
                else f.value
      .ok ({ f with value := v0.take off ++ p ++ v0.drop expLen }, p.length)

/-- `File.Write` from part_018: `WriteAt` at the current position, then
advance the position by the bytes written. -/
def File.Write (f : File) (p : Bytes) : Except Err (File × Nat) :=
  match f.WriteAt p f.pos with
  | .error e => .error e
  | .ok (f1, n) => .ok ({ f1 with pos := f1.pos + n }, n)

/-- `File.WriteString` from part_018: `WriteAt` of the string's bytes at the
current position, then advance (byte encoding abstracted as code points; the
content never matters for the claims, only the validation order and length). -/
def File.WriteString (f : File) (s : String) : Except Err (File × Nat) :=
  match f.WriteAt (s.toList.map Char.toNat) f.pos with
  | .error e => .error e
  | .ok (f1, n) => .ok ({ f1 with pos := f1.pos + n }, n)

/-- `File.Truncate` from part_018: a size at or above the current length is
a no-op; otherwise the value shrinks to its first `size` bytes (sizes are
modelled as naturals; a negative size panics in Go). -/
def File.Truncate (f : File) (size : Nat) : Except Err File :=
  match f.validateRW with
  | some e => .error e
  | none =>
      if f.value.length ≤ size then .ok f
      else .ok { f with value := f.value.take size }

/-- `File.Sync` from part_018: `validateRO`, then a read-only handle is a
no-op and a writable one flushes through `Backend.Update`. -/
def File.Sync (f : File) (st : Store) : Except Err Store :=
  match f.validateRO with
  | some e => .error e
  | none => if f.readonly then .ok st else bUpdate st f

/-- `File.Close` from part_018: closing twice is `ErrFileClosed`; a non-dir
handle syncs first; then the handle is marked closed. -/
def File.Close (f : File) (st : Store) : Except Err (File × Store) :=
  if f.closed then .error .fileClosed
  else if f.spath.isDir then .ok ({ f with closed := true }, st)
  else
    match f.Sync st with
    | .error e => .error e
    | .ok st1 => .ok ({ f with closed := true }, st1)

/-- `isEmptyDir` from part_018. -/
def File.isEmptyDir (f : File) : Bool :=
  f.spath.isDir && f.data.isEmpty

/-- `secfs.Stat` from `fs.go` (secfs revision): just `Open`. -/
def Stat (st : Store) (name : String) : Except Err File :=
  Open st name

/-- `secfs.Mkdir` from `fs.go`: reject leaf paths with `ENOTDIR`; an `Open`
that succeeds means the secret exists (`EEXIST`); an `Open` failure other
than not-exist propagates; otherwise create the empty secret.  The
permission argument is ignored by the source. -/
def Mkdir (st : Store) (name : String) (_perm : Nat) : Except Err Store :=
  match newFile name with
  | .error e => .error e
  | .ok s =>
      if ¬ s.spath.isDir then .error .enotdir
      else
        match Open st name with
        | .ok _ => .error .eexist
        | .error .enoent => bCreate st s
        | .error e => .error e

/-- `secfs.MkdirAll` from `fs.go`: calls `Mkdir`. -/
def MkdirAll (st : Store) (name : String) (perm : Nat) : Except Err Store :=
  Mkdir st name perm

/-- `secfs.Remove` from `fs.go`: `Stat`, then a directory must have an empty
data map (`ENOTEMPTY` otherwise) and is deleted via `Backend.Delete`; a leaf
is deleted by flagging the handle and flushing via `Backend.Update`. -/
def Remove (st : Store) (name : String) : Except Err Store :=
  match Stat st name with
  | .error e => .error e
  | .ok s =>
      if s.spath.isDir then
        if ¬ s.isEmptyDir then .error .enotempty
        else bDelete st s
      else bUpdate st { s with delete := true }

/-- `secfs.RemoveAll` from `fs.go`: like `Remove`, but a not-found target is
success and a non-empty directory is deleted unconditionally. -/
def RemoveAll (st : Store) (name : String) : Except Err Store :=
  match Stat st name with
  | .error .enoent => .ok st
  | .error e => .error e
  | .ok s =>
      if s.spath.isDir then bDelete st s
      else bUpdate st { s with delete := true }

/-- Join of slash-separated path components: Go `path.Join`, which drops
empty components and cleans the result.  The model joins the non-empty
components with `/`; this matches `path.Join` whenever no component contains
a slash or is a dot segment, which holds for all parsed path segments this
code ever joins. -/
def joinChars : List (List Char) → List Char
  | [] => []
  | [a] => a
  | a :: b :: rest => a ++ '/' :: joinChars (b :: rest)

/-- Go `path.Join` over components (see `joinChars`). -/
def pathJoin (xs : List String) : String :=
  String.mk (joinChars ((xs.filter (fun s => s ≠ "")).map String.toList))

/-- `secfs.Rename` from `fs.go` (secfs revision): parse both paths; a
namespace change is `ErrMoveCrossNamespace`; directory to directory goes to
`Backend.Rename`, directory to leaf is `ErrMoveConvert`; a leaf source is
opened, re-created at the destination (destination key name for a leaf
destination, source key name for a directory destination), the new handle
takes the source value and is closed (which syncs), and finally the source
key is deleted via `Backend.Update` with the delete flag. -/
def Rename (st : Store) (o n : String) : Except Err Store :=
  match newSecretPath o with
  | .error e => .error e
  | .ok oldSp =>
      match newSecretPath n with
      | .error e => .error e
      | .ok newSp =>
          if oldSp.ns ≠ newSp.ns then .error .moveCrossNamespace
          else if oldSp.isDir then
            if newSp.isDir then bRename st oldSp newSp
            else .error .moveConvert
          else
            match Open st o with
            | .error e => .error e
            | .ok ofi =>
                let keyName := if ¬ newSp.isDir then newSp.key else oldSp.key
                match FileCreate st (pathJoin [newSp.ns, newSp.secret, keyName]) with
                | .error e => .error e
                | .ok (nfi, st1) =>
                    match File.Close { nfi with value := ofi.value } st1 with
                    | .error e => .error e
                    | .ok (_, st2) => bUpdate st2 { ofi with delete := true }

/-! ### Helper lemmas -/

deriving instance DecidableEq for Except

theorem lookupA_insertA_self {κ α : Type} [DecidableEq κ] (m : List (κ × α)) (k : κ) (v : α) :
    lookupA (insertA m k v) k = some v := by
  induction m with
  | nil => simp [insertA, lookupA]
  | cons kv m ih =>
      obtain ⟨k0, v0⟩ := kv
      by_cases h : k = k0 <;> simp [insertA, lookupA, h, ih]

theorem lookupA_insertA_ne {κ α : Type} [DecidableEq κ] (m : List (κ × α)) {k k2 : κ} (v : α)
    (h : k2 ≠ k) : lookupA (insertA m k v) k2 = lookupA m k2 := by
  induction m with
  | nil => simp [insertA, lookupA, h]
  | cons kv m ih =>
      obtain ⟨k0, v0⟩ := kv
      by_cases h0 : k = k0
      · subst h0; simp [insertA, lookupA, h]
      · by_cases h2 : k2 = k0 <;> simp [insertA, lookupA, h0, h2, ih]

theorem lookupA_eraseA_self {κ α : Type} [DecidableEq κ] (m : List (κ × α)) (k : κ) :
    lookupA (eraseA m k) k = none := by
  induction m with
  | nil => simp [eraseA, lookupA]
  | cons kv m ih =>
      obtain ⟨k0, v0⟩ := kv
      by_cases h : k = k0
      · subst h; simp [eraseA, ih]
      · simp [eraseA, lookupA, h, ih]

theorem lookupA_eraseA_ne {κ α : Type} [DecidableEq κ] (m : List (κ × α)) {k k2 : κ}
    (h : k2 ≠ k) : lookupA (eraseA m k) k2 = lookupA m k2 := by
  induction m with
  | nil => simp [eraseA, lookupA]
  | cons kv m ih =>
      obtain ⟨k0, v0⟩ := kv
      by_cases h0 : k = k0
      · subst h0; simp [eraseA, lookupA, h, ih]
      · by_cases h2 : k2 = k0 <;> simp [eraseA, lookupA, h0, h2, ih]

theorem insertA_insertA_self {κ α : Type} [DecidableEq κ] (m : List (κ × α)) (k : κ) (v w : α) :
    insertA (insertA m k v) k w = insertA m k w := by
  induction m with
  | nil => simp [insertA]
  | cons kv m ih =>
      obtain ⟨k0, v0⟩ := kv
      by_cases h : k = k0 <;> simp [insertA, h, ih]

theorem splitChars_ne_nil (c : Char) : ∀ l : List Char, splitChars c l ≠ []
  | [] => by simp [splitChars]
  | x :: cs => by
      rw [splitChars]
      rcases h : splitChars c cs with _ | ⟨s, ss⟩
      · simp
      · by_cases hx : x = c <;> simp [hx]

theorem splitChars_cons_sep (c : Char) (r : List Char) :
    splitChars c (c :: r) = [] :: splitChars c r := by
  rw [splitChars]
  rcases h : splitChars c r with _ | ⟨s, ss⟩
  · exact absurd h (splitChars_ne_nil c r)
  · simp

theorem splitChars_cons_ne (c x : Char) (hx : x ≠ c) (r : List Char) {s : List Char}
    {ss : List (List Char)} (h : splitChars c r = s :: ss) :
    splitChars c (x :: r) = (x :: s) :: ss := by
  rw [splitChars, h]
  simp [hx]

theorem splitChars_eq_of_not_mem (c : Char) : ∀ {a : List Char}, c ∉ a → splitChars c a = [a]
  | [], _ => by simp [splitChars]
  | x :: a, h => by
      have hx : x ≠ c := fun e => h (e ▸ List.mem_cons_self x a)
      have ha : c ∉ a := fun e => h (List.mem_cons_of_mem x e)
      exact splitChars_cons_ne c x hx a (splitChars_eq_of_not_mem c ha)

theorem splitChars_append_sep (c : Char) :
    ∀ {a : List Char}, c ∉ a → ∀ r : List Char,
      splitChars c (a ++ c :: r) = a :: splitChars c r
  | [], _, r => by simpa using splitChars_cons_sep c r
  | x :: a, h, r => by
      have hx : x ≠ c := fun e => h (e ▸ List.mem_cons_self x a)
      have ha : c ∉ a := fun e => h (List.mem_cons_of_mem x e)
      rcases hs : splitChars c (a ++ c :: r) with _ | ⟨s, ss⟩
      · exact absurd hs (splitChars_ne_nil c _)
      · have := splitChars_append_sep c ha r
        rw [hs] at this
        cases this
        simpa using splitChars_cons_ne c x hx (a ++ c :: r) hs

theorem trimChar_eq_self {c : Char} {l : List Char}
    (h1 : l.head? ≠ some c) (h2 : l.getLast? ≠ some c) : trimChar c l = l := by
  unfold trimChar
  have d1 : l.dropWhile (fun x => x = c) = l := by
    cases l with
    | nil => rfl
    | cons x t =>
        have hx : ¬ (x = c) := fun e => h1 (by simp [e])
        simp [List.dropWhile_cons, hx]
  rw [d1]
  have d2 : l.reverse.dropWhile (fun x => x = c) = l.reverse := by
    rcases hr : l.reverse with _ | ⟨y, t⟩
    · rfl
    · have hy : l.getLast? = some y := by
        rw [← List.head?_reverse, hr]; rfl
      have : ¬ (y = c) := fun e => h2 (e ▸ hy)
      simp [List.dropWhile_cons, this]
  rw [d2, List.reverse_reverse]

theorem toList_mk (l : List Char) : (String.mk l).toList = l := rfl

theorem mk_toList (s : String) : String.mk s.toList = s := rfl

theorem toList_ne_nil {s : String} (h : s ≠ "") : s.toList ≠ [] := by
  intro e
  apply h
  have := congrArg String.mk e
  rwa [mk_toList] at this

theorem newSecretPath_pathJoin (a b c : String)
    (h1 : a ≠ "") (h2 : b ≠ "") (h3 : c ≠ "")
    (m1 : '/' ∉ a.toList) (m2 : '/' ∉ b.toList) (m3 : '/' ∉ c.toList) :
    newSecretPath (pathJoin [a, b, c]) =
      .ok { ns := a, secret := b, key := c, isDir := false } := by
  have hj : pathJoin [a, b, c] = String.mk (a.toList ++ '/' :: (b.toList ++ '/' :: c.toList)) := by
    simp [pathJoin, h1, h2, h3, joinChars]
  rw [hj, newSecretPath, toList_mk]
  have ht : trimChar '/' (a.toList ++ '/' :: (b.toList ++ '/' :: c.toList)) =
      a.toList ++ '/' :: (b.toList ++ '/' :: c.toList) := by
    apply trimChar_eq_self
    · rcases ha : a.toList with _ | ⟨x, t⟩
      · exact absurd ha (toList_ne_nil h1)
      · have hx : x ≠ '/' := fun e => m1 (by rw [ha, e]; exact List.mem_cons_self _ _)
        simp [ha, hx]
    · have hassoc : a.toList ++ '/' :: (b.toList ++ '/' :: c.toList) =
          (a.toList ++ '/' :: b.toList ++ ['/']) ++ c.toList := by
        simp
      rw [hassoc, List.getLast?_append_of_ne_nil _ (toList_ne_nil h3)]
      intro hlast
      exact m3 (List.mem_of_mem_getLast? hlast)
  rw [ht, splitChars_append_sep '/' m1, splitChars_append_sep '/' m2,
      splitChars_eq_of_not_mem '/' m3]
  simp [mk_toList]


/-! ### Claim theorems -/

/-- Claim C2 (counterexample): the claim says any input with an empty
segment, such as "ns//key", fails with the invalid-path error; the parser
actually accepts it (only the segment count is checked), producing an empty
container-name segment. -/
theorem C2_counterexample :
    newSecretPath ("ns//key") =
      .ok { ns := "ns", secret := "", key := "key", isDir := false } := by
  decide

/-- Claim C2 (amended): the path parser succeeds exactly when, after
trimming leading and trailing slashes, splitting on the slash yields 2 or 3
segments; segments are not checked for non-emptiness (only the interior
segment of a 3-segment path can be empty, since trimming removes boundary
slashes), and any other segment count fails with `EINVAL`.  The theorem
also records that every failure is exactly the `EINVAL` error. -/
theorem C2_amended (s : String) :
    ((∃ p, newSecretPath s = .ok p) ↔
      ((splitChars '/' (trimChar '/' s.toList)).length = 2 ∨
       (splitChars '/' (trimChar '/' s.toList)).length = 3)) ∧
    (¬ ((splitChars '/' (trimChar '/' s.toList)).length = 2 ∨
        (splitChars '/' (trimChar '/' s.toList)).length = 3) →
      newSecretPath s = .error .einval) := by
  rcases h : splitChars '/' (trimChar '/' s.toList) with _ | ⟨a, _ | ⟨b, _ | ⟨c, _ | ⟨d, t⟩⟩⟩⟩ <;>
    refine ⟨?_, ?_⟩ <;> simp only [newSecretPath, h] <;> simp

/-- Claim C2 (witness for the amended theorem): a concrete 2-segment path
is accepted via the amended equivalence. -/
theorem C2_witness : ∃ p, newSecretPath "default/secret" = .ok p :=
  (C2_amended "default/secret").1.mpr (by decide)

/-- Claim C4: for every pair of validly parsed paths whose namespace
segments differ, `Rename` fails with `ErrMoveCrossNamespace`, regardless of
whether either path addresses a container or a leaf; the error is returned
before any backend call, so no store mutation occurs (the model returns the
error without producing a new store). -/
theorem C4_cross_namespace (st : Store) (o n : String) (po pn : secretPath)
    (ho : newSecretPath o = .ok po) (hn : newSecretPath n = .ok pn)
    (hns : po.ns ≠ pn.ns) :
    Rename st o n = .error .moveCrossNamespace := by
  simp only [Rename, ho, hn]
  rw [if_pos hns]

/-- Claim C4 (witness): renaming between the namespaces of two concrete
parsed paths fails with the cross-namespace error. -/
theorem C4_witness : Rename [] "ns1/a" "ns2/a" = .error .moveCrossNamespace :=
  C4_cross_namespace [] "ns1/a" "ns2/a"
    { ns := "ns1", secret := "a", key := "", isDir := true }
    { ns := "ns2", secret := "a", key := "", isDir := true }
    (by decide) (by decide) (by decide)

/-- Claim C7: on a writable leaf handle (not closed, not a directory, not
read-only) with value of length m, `Truncate n` with `n < m` shrinks the
value to exactly the first n original bytes, and `Truncate n` with `n ≥ m`
leaves the handle unchanged (no zero-extension). -/
theorem C7_truncate (f : File) (size : Nat)
    (hc : f.closed = false) (hd : f.spath.isDir = false) (hr : f.readonly = false) :
    (size < f.value.length →
      f.Truncate size = .ok { f with value := f.value.take size } ∧
      (f.value.take size).length = size) ∧
    (f.value.length ≤ size → f.Truncate size = .ok f) := by
  have hrw : f.validateRW = none := by
    simp [File.validateRW, File.validateRO, hc, hd, hr]
  refine ⟨fun h => ⟨?_, ?_⟩, fun h => ?_⟩
  · simp [File.Truncate, hrw, Nat.not_le.mpr h]
  · simp [List.length_take, Nat.min_eq_left (Nat.le_of_lt h)]
  · simp [File.Truncate, hrw, h]

/-- Claim C7 (witness): truncating a concrete 3-byte value to 2 bytes keeps
the first two bytes; truncating it to 5 bytes is a no-op. -/
theorem C7_witness :
    File.Truncate
      { spath := { ns := "d", secret := "s", key := "k", isDir := false },
        key := "k", value := [10, 20, 30], data := [("k", [10, 20, 30])],
        readonly := false, closed := false, delete := false, pos := 0 } 2 =
      .ok { spath := { ns := "d", secret := "s", key := "k", isDir := false },
            key := "k", value := [10, 20], data := [("k", [10, 20, 30])],
            readonly := false, closed := false, delete := false, pos := 0 } ∧
    File.Truncate
      { spath := { ns := "d", secret := "s", key := "k", isDir := false },
        key := "k", value := [10, 20, 30], data := [("k", [10, 20, 30])],
        readonly := false, closed := false, delete := false, pos := 0 } 5 =
      .ok { spath := { ns := "d", secret := "s", key := "k", isDir := false },
            key := "k", value := [10, 20, 30], data := [("k", [10, 20, 30])],
            readonly := false, closed := false, delete := false, pos := 0 } :=
  ⟨((C7_truncate _ 2 rfl rfl rfl).1 (by decide)).1,
   (C7_truncate _ 5 rfl rfl rfl).2 (by decide)⟩

/-- Claim C10: `MkdirAll` is a pure delegation to `Mkdir` — it returns
exactly the same result for every store, path name and permission argument —
and consequently `MkdirAll` on an already-existing (managed) container fails
with `EEXIST` instead of succeeding idempotently like POSIX mkdir -p. -/
theorem C10_mkdirall_delegates :
    (∀ (st : Store) (name : String) (perm : Nat),
        MkdirAll st name perm = Mkdir st name perm) ∧
    (∀ (st : Store) (name : String) (perm : Nat) (p : secretPath)
        (D : List (String × Bytes)),
        newSecretPath name = .ok p → p.isDir = true →
        storeLookup st p.ns p.secret = some { data := D, managed := true } →
        MkdirAll st name perm = .error .eexist) := by
  refine ⟨fun st name perm => rfl, fun st name perm p D hp hdir hst => ?_⟩
  have hopen : Open st name =
      .ok { spath := p, key := p.key, value := [], data := D,
            readonly := true, closed := false, delete := false, pos := 0 } := by
    simp only [Open, newFile, hp, bGet, bget, hst]
    simp [hdir]
  simp only [MkdirAll, Mkdir, newFile, hp, hdir, hopen]
  simp

/-- Claim C10 (witness): on a store holding the container "default/sec",
`MkdirAll` fails with `EEXIST`. -/
theorem C10_witness :
    MkdirAll [(("default", "sec"), { data := [], managed := true })]
      "default/sec" 0 = .error .eexist :=
  C10_mkdirall_delegates.2
    [(("default", "sec"), { data := [], managed := true })]
    "default/sec" 0 { ns := "default", secret := "sec", key := "", isDir := true } []
    (by decide) (by decide) (by decide)

/-- Claim C5 (counterexample): the claim says a Read returns `(n, EOF)`
whenever fewer bytes than requested remain; reading 10 bytes from a 5-byte
value at position 0 actually returns the 5 remaining bytes with a nil error
(no EOF), exactly as `bytes.Reader.Read` behaves. -/
theorem C5_counterexample :
    File.Read
      { spath := { ns := "d", secret := "s", key := "k", isDir := false },
        key := "k", value := [1, 2, 3, 4, 5], data := [("k", [1, 2, 3, 4, 5])],
        readonly := true, closed := false, delete := false, pos := 0 } 10 =
      .ok ({ spath := { ns := "d", secret := "s", key := "k", isDir := false },
             key := "k", value := [1, 2, 3, 4, 5], data := [("k", [1, 2, 3, 4, 5])],
             readonly := true, closed := false, delete := false, pos := 5 },
           [1, 2, 3, 4, 5], false) := by
  decide

/-- Claim C5 (amended): on an open, non-closed leaf handle, `Read` from the
current position returns `(n, nil)` with `n = min(len(buf), remaining)`
whenever at least one byte remains before the end — including partial reads,
which return a nil error rather than EOF — and returns `(0, EOF)` exactly
when the position is at or past the end of the value, which covers reading
an empty value with a non-empty buffer. -/
theorem C5_amended (f : File) (plen : Nat)
    (hc : f.closed = false) (hd : f.spath.isDir = false) :
    (f.pos < f.value.length →
        f.Read plen =
          .ok ({ f with pos := f.pos + min plen (f.value.length - f.pos) },
               (f.value.drop f.pos).take plen, false) ∧
        ((f.value.drop f.pos).take plen).length = min plen (f.value.length - f.pos)) ∧
    (f.value.length ≤ f.pos → f.Read plen = .ok (f, [], true)) := by
  have hro : f.validateRO = none := by simp [File.validateRO, hc, hd]
  refine ⟨fun h => ⟨?_, ?_⟩, fun h => ?_⟩
  · simp [File.Read, hro, Nat.not_le.mpr h, List.length_take, List.length_drop]
  · simp [List.length_take, List.length_drop]
  · simp [File.Read, hro, h]

/-- Claim C5 (witness for the amended theorem): a concrete full read of 3
of 4 bytes returns `(3, nil)`, and a concrete read at the end returns
`(0, EOF)`. -/
theorem C5_witness :
    File.Read
      { spath := { ns := "d", secret := "s", key := "k", isDir := false },
        key := "k", value := [7, 8, 9, 10], data := [("k", [7, 8, 9, 10])],
        readonly := true, closed := false, delete := false, pos := 0 } 3 =
      .ok ({ spath := { ns := "d", secret := "s", key := "k", isDir := false },
             key := "k", value := [7, 8, 9, 10], data := [("k", [7, 8, 9, 10])],
             readonly := true, closed := false, delete := false, pos := 3 },
           [7, 8, 9], false) ∧
    File.Read
      { spath := { ns := "d", secret := "s", key := "k", isDir := false },
        key := "k", value := [7, 8, 9, 10], data := [("k", [7, 8, 9, 10])],
        readonly := true, closed := false, delete := false, pos := 4 } 3 =
      .ok ({ spath := { ns := "d", secret := "s", key := "k", isDir := false },
             key := "k", value := [7, 8, 9, 10], data := [("k", [7, 8, 9, 10])],
             readonly := true, closed := false, delete := false, pos := 4 },
           [], true) :=
  ⟨((C5_amended _ 3 rfl rfl).1 (by decide)).1,
   (C5_amended _ 3 rfl rfl).2 (by decide)⟩

/-- Claim C6: on a writable leaf handle with value of length L, `WriteAt p
off` returns `n = len(p)`, preserves all bytes below `off`, zero-fills the
gap between L and `off` when `off > L`, writes `p` at `off`, keeps the tail
beyond `off + len(p)`, and the resulting length is `max L (off + len(p))`
(so the value grows exactly when `off + len(p) > L`). -/
theorem C6_writeat (f : File) (p : Bytes) (off : Nat)
    (hc : f.closed = false) (hd : f.spath.isDir = false) (hr : f.readonly = false) :
    f.WriteAt p off =
      .ok ({ f with value := f.value.take off ++ List.replicate (off - f.value.length) 0
                              ++ p ++ f.value.drop (off + p.length) }, p.length) ∧
    (f.value.take off ++ List.replicate (off - f.value.length) 0
       ++ p ++ f.value.drop (off + p.length)).length
      = max f.value.length (off + p.length) := by
  have hrw : f.validateRW = none := by
    simp [File.validateRW, File.validateRO, hc, hd, hr]
  constructor
  · by_cases hg : f.value.length < off + p.length
    · have e1 : (f.value ++ List.replicate (off + p.length - f.value.length) 0).take off
          = f.value.take off ++ List.replicate (off - f.value.length) 0 := by
        rw [List.take_append_eq_append_take, List.take_replicate]
        congr 2
        omega
      have e2 : (f.value ++ List.replicate (off + p.length - f.value.length) 0).drop
            (off + p.length) = [] := by
        apply List.drop_eq_nil_of_le
        simp only [List.length_append, List.length_replicate]
        omega
      have e3 : f.value.drop (off + p.length) = [] :=
        List.drop_eq_nil_of_le (by omega)
      simp only [File.WriteAt, hrw, if_pos hg, e1, e2, e3, List.append_assoc,
        List.append_nil]
    · have e0 : off - f.value.length = 0 := by omega
      simp only [File.WriteAt, hrw, if_neg hg, e0]
      simp
  · simp only [List.length_append, List.length_take, List.length_replicate,
      List.length_drop]
    omega

/-- Claim C6 (witness): writing `[9, 9]` at offset 5 into the 2-byte value
`[1, 2]` yields `[1, 2, 0, 0, 0, 9, 9]` (zero-filled gap) and returns 2. -/
theorem C6_witness :
    File.WriteAt
      { spath := { ns := "d", secret := "s", key := "k", isDir := false },
        key := "k", value := [1, 2], data := [("k", [1, 2])],
        readonly := false, closed := false, delete := false, pos := 0 } [9, 9] 5 =
      .ok ({ spath := { ns := "d", secret := "s", key := "k", isDir := false },
             key := "k", value := [1, 2, 0, 0, 0, 9, 9], data := [("k", [1, 2])],
             readonly := false, closed := false, delete := false, pos := 0 }, 2) :=
  (C6_writeat _ [9, 9] 5 rfl rfl rfl).1

/-- Claim C9 (counterexample): the claim says the directory check takes
precedence over the closed check, so byte-stream operations on a closed
directory handle should still return `EISDIR`; in the final revision
(part_018) `validateRO` checks `closed` first, so `Read` on a closed
directory handle returns `ErrFileClosed`, not `EISDIR`. -/
theorem C9_counterexample :
    File.Read
      { spath := { ns := "d", secret := "s", key := "", isDir := true },
        key := "", value := [], data := [("k", [1])],
        readonly := true, closed := true, delete := false, pos := 0 } 1 =
      .error .fileClosed ∧ Err.fileClosed ≠ Err.eisdir := by
  decide

/-- Claim C9 (amended): every one of Read, ReadAt, Seek, Write, WriteAt,
Truncate, WriteString and Sync on a directory handle that is not closed
returns `EISDIR`; in the final revision (part_018) the closed check precedes
the directory check, so on a closed directory handle these operations return
`ErrFileClosed` instead; in the `file.go` revision the directory check comes
first (`validateROMid`), as the claim states. -/
theorem C9_amended (f : File) (st : Store) (plen off size whence : Nat)
    (ioff : Int) (p : Bytes) (s : String) (hdir : f.spath.isDir = true) :
    (f.closed = false →
      f.Read plen = .error .eisdir ∧
      f.ReadAt plen off = .error .eisdir ∧
      f.Seek ioff whence = .error .eisdir ∧
      f.Write p = .error .eisdir ∧
      f.WriteAt p off = .error .eisdir ∧
      f.Truncate size = .error .eisdir ∧
      f.WriteString s = .error .eisdir ∧
      f.Sync st = .error .eisdir) ∧
    (f.closed = true →
      f.Read plen = .error .fileClosed ∧
      f.ReadAt plen off = .error .fileClosed ∧
      f.Seek ioff whence = .error .fileClosed ∧
      f.Write p = .error .fileClosed ∧
      f.WriteAt p off = .error .fileClosed ∧
      f.Truncate size = .error .fileClosed ∧
      f.WriteString s = .error .fileClosed ∧
      f.Sync st = .error .fileClosed) ∧
    f.validateROMid = some .eisdir := by
  refine ⟨fun hc => ?_, fun hc => ?_, by simp [File.validateROMid, hdir]⟩
  · have hro : f.validateRO = some .eisdir := by simp [File.validateRO, hc, hdir]
    have hrw : f.validateRW = some .eisdir := by simp [File.validateRW, hro]
    exact ⟨by simp [File.Read, hro], by simp [File.ReadAt, hro],
      by simp [File.Seek, hro], by simp [File.Write, File.WriteAt, hrw],
      by simp [File.WriteAt, hrw], by simp [File.Truncate, hrw],
      by simp [File.WriteString, File.WriteAt, hrw], by simp [File.Sync, hro]⟩
  · have hro : f.validateRO = some .fileClosed := by simp [File.validateRO, hc]
    have hrw : f.validateRW = some .fileClosed := by simp [File.validateRW, hro]
    exact ⟨by simp [File.Read, hro], by simp [File.ReadAt, hro],
      by simp [File.Seek, hro], by simp [File.Write, File.WriteAt, hrw],
      by simp [File.WriteAt, hrw], by simp [File.Truncate, hrw],
      by simp [File.WriteString, File.WriteAt, hrw], by simp [File.Sync, hro]⟩

/-- Claim C9 (witness for the amended theorem): on a concrete open
directory handle `Write` returns `EISDIR`, and on a concrete closed
directory handle `Sync` returns `ErrFileClosed`. -/
theorem C9_witness :
    File.Write
      { spath := { ns := "d", secret := "s", key := "", isDir := true },
        key := "", value := [], data := [],
        readonly := true, closed := false, delete := false, pos := 0 } [1] =
      .error .eisdir ∧
    File.Sync
      { spath := { ns := "d", secret := "s", key := "", isDir := true },
        key := "", value := [], data := [],
        readonly := true, closed := true, delete := false, pos := 0 } [] =
      .error .fileClosed :=
  ⟨(((C9_amended _ [] 0 0 0 0 0 [1] "") rfl).1 rfl).2.2.2.1,
   (((C9_amended _ [] 0 0 0 0 0 [1] "") rfl).2.1 rfl).2.2.2.2.2.2.2⟩

/-- Claim C8: `Remove` on an existing (managed) container with at least one
key fails `ENOTEMPTY` (the error is returned before any backend call, so
nothing is deleted), while `RemoveAll` on the same container succeeds and
deletes the container with all its keys from the store; and on a target
whose container does not exist, `RemoveAll` returns success with the store
unchanged whereas `Remove` returns the not-exist error. -/
theorem C8_remove (st : Store) (name : String) (p : secretPath) :
    (∀ D : List (String × Bytes),
       newSecretPath name = .ok p → p.isDir = true →
       storeLookup st p.ns p.secret = some { data := D, managed := true } → D ≠ [] →
       Remove st name = .error .enotempty ∧
       RemoveAll st name = .ok (storeErase st p.ns p.secret)) ∧
    (newSecretPath name = .ok p → storeLookup st p.ns p.secret = none →
       Remove st name = .error .enoent ∧ RemoveAll st name = .ok st) := by
  constructor
  · intro D hp hdir hst hD
    have hopen : Open st name =
        .ok { spath := p, key := p.key, value := [], data := D,
              readonly := true, closed := false, delete := false, pos := 0 } := by
      simp only [Open, newFile, hp, bGet, bget, hst]
      simp [hdir]
    have hemp : File.isEmptyDir
        { spath := p, key := p.key, value := [], data := D,
          readonly := true, closed := false, delete := false, pos := 0 } = false := by
      cases D with
      | nil => exact absurd rfl hD
      | cons kv t => simp [File.isEmptyDir]
    constructor
    · simp only [Remove, Stat, hopen]
      simp [hdir, hemp]
    · simp only [RemoveAll, Stat, hopen]
      simp [hdir, bDelete, bget, hst]
  · intro hp hnone
    have hopen : Open st name = .error .enoent := by
      simp only [Open, newFile, hp, bGet, bget, hnone]
    constructor
    · simp only [Remove, Stat, hopen]
    · simp only [RemoveAll, Stat, hopen]

/-- Claim C8 (witness): on a store holding the container "d/s" with one
key, `Remove` fails `ENOTEMPTY` and `RemoveAll` deletes the container; on
the empty store both not-found behaviours show. -/
theorem C8_witness :
    Remove [(("d", "s"), { data := [("k", [1])], managed := true })] "d/s" =
      .error .enotempty ∧
    RemoveAll [(("d", "s"), { data := [("k", [1])], managed := true })] "d/s" =
      .ok [] ∧
    Remove [] "d/s" = .error .enoent ∧
    RemoveAll [] "d/s" = .ok [] :=
  have h1 := (C8_remove [(("d", "s"), { data := [("k", [1])], managed := true })]
    "d/s" { ns := "d", secret := "s", key := "", isDir := true }).1
    [("k", [1])] (by decide) (by decide) (by decide) (by decide)
  have h2 := (C8_remove [] "d/s"
    { ns := "d", secret := "s", key := "", isDir := true }).2 (by decide) (by decide)
  ⟨h1.1, h1.2, h2.1, h2.2⟩

/-- Claim C3: a container-to-container `Rename` within one namespace, with
the (managed) source container present, fails `EEXIST` when the (managed)
destination container already exists — the error is returned before any
backend mutation, so the source is unchanged — and otherwise creates the
destination container carrying the source container's full key-to-value
mapping and deletes the source container. -/
theorem C3_container_rename (st : Store) (o n : String) (po pn : secretPath)
    (D : List (String × Bytes))
    (ho : newSecretPath o = .ok po) (hn : newSecretPath n = .ok pn)
    (hod : po.isDir = true) (hnd : pn.isDir = true) (hns : po.ns = pn.ns)
    (hsrc : storeLookup st po.ns po.secret = some { data := D, managed := true }) :
    (∀ E : List (String × Bytes),
       storeLookup st pn.ns pn.secret = some { data := E, managed := true } →
       Rename st o n = .error .eexist) ∧
    (storeLookup st pn.ns pn.secret = none →
       Rename st o n =
         .ok (storeErase (storeSet st pn.ns pn.secret { data := D, managed := true })
               po.ns po.secret) ∧
       storeLookup (storeErase (storeSet st pn.ns pn.secret { data := D, managed := true })
           po.ns po.secret) pn.ns pn.secret = some { data := D, managed := true } ∧
       storeLookup (storeErase (storeSet st pn.ns pn.secret { data := D, managed := true })
           po.ns po.secret) po.ns po.secret = none) := by
  have hne : ¬ (po.ns ≠ pn.ns) := fun h => h hns
  constructor
  · intro E hdst
    simp only [Rename, ho, hn, if_neg hne, hod, hnd]
    simp [bRename, bget, hsrc, hdst]
  · intro hdst
    have hpair : (pn.ns, pn.secret) ≠ (po.ns, po.secret) := by
      intro e
      have : storeLookup st pn.ns pn.secret = storeLookup st po.ns po.secret := by
        simp only [storeLookup]
        rw [e]
      rw [hdst, hsrc] at this
      exact Option.noConfusion this
    refine ⟨?_, ?_, ?_⟩
    · simp only [Rename, ho, hn, if_neg hne, hod, hnd]
      simp [bRename, bget, hsrc, hdst]
    · simp only [storeLookup, storeErase, storeSet]
      rw [lookupA_eraseA_ne _ hpair, lookupA_insertA_self]
    · simp only [storeLookup, storeErase]
      rw [lookupA_eraseA_self]

/-- Claim C3 (witness): with source "d/s1" holding one key, rename onto the
existing container "d/s2" fails `EEXIST`; on the store without "d/s2" the
rename creates "d/s2" with the source mapping and deletes "d/s1". -/
theorem C3_witness :
    Rename [(("d", "s1"), { data := [("k", [7])], managed := true }),
            (("d", "s2"), { data := [], managed := true })] "d/s1" "d/s2" =
      .error .eexist ∧
    Rename [(("d", "s1"), { data := [("k", [7])], managed := true })] "d/s1" "d/s2" =
      .ok [(("d", "s2"), { data := [("k", [7])], managed := true })] :=
  have h1 := (C3_container_rename
    [(("d", "s1"), { data := [("k", [7])], managed := true }),
     (("d", "s2"), { data := [], managed := true })] "d/s1" "d/s2"
    { ns := "d", secret := "s1", key := "", isDir := true }
    { ns := "d", secret := "s2", key := "", isDir := true }
    [("k", [7])] (by decide) (by decide) (by decide) (by decide) (by decide)
    (by decide)).1 [] (by decide)
  have h2 := ((C3_container_rename
    [(("d", "s1"), { data := [("k", [7])], managed := true })] "d/s1" "d/s2"
    { ns := "d", secret := "s1", key := "", isDir := true }
    { ns := "d", secret := "s2", key := "", isDir := true }
    [("k", [7])] (by decide) (by decide) (by decide) (by decide) (by decide)
    (by decide)).2 (by decide)).1
  ⟨h1, h2⟩

/-- Claim C1 (counterexample): the claim says `Create` on an existing key
fails `EEXIST` and leaves the key's value unchanged; on a store where
"default/sec" holds key "k" with value `[49]`, `FileCreate` actually
succeeds and truncates the stored value to empty. -/
theorem C1_counterexample :
    FileCreate [(("default", "sec"), { data := [("k", [49])], managed := true })]
        "default/sec/k" =
      .ok ({ spath := { ns := "default", secret := "sec", key := "k", isDir := false },
             key := "k", value := [], data := [("k", [])],
             readonly := false, closed := false, delete := false, pos := 0 },
           [(("default", "sec"), { data := [("k", [])], managed := true })]) := by
  decide

/-- Claim C1 (amended): for a path whose (managed) owning container exists
and already contains the addressed key, `Create` (`FileCreate`) does not
fail — it succeeds and truncates the existing key's value to empty
(`os.Create` semantics; there is no strict-create `EEXIST` check in this
revision) — while `Rename` of a leaf onto an existing destination key in
the same container succeeds, replaces the destination value with the
source value, and deletes the source key. -/
theorem C1_amended :
    (∀ (st : Store) (name : String) (p : secretPath) (D : List (String × Bytes))
        (v : Bytes),
        newSecretPath name = .ok p → p.isDir = false →
        storeLookup st p.ns p.secret = some { data := D, managed := true } →
        lookupA D p.key = some v →
        FileCreate st name =
          .ok ({ spath := p, key := p.key, value := [], data := insertA D p.key [],
                 readonly := false, closed := false, delete := false, pos := 0 },
               storeSet st p.ns p.secret { data := insertA D p.key [], managed := true }) ∧
        lookupA (insertA D p.key ([] : Bytes)) p.key = some []) ∧
    (∀ (st : Store) (nsp sec okey nkey : String) (D : List (String × Bytes))
        (v w : Bytes),
        nsp ≠ "" → sec ≠ "" → okey ≠ "" → nkey ≠ "" →
        '/' ∉ nsp.toList → '/' ∉ sec.toList → '/' ∉ okey.toList → '/' ∉ nkey.toList →
        okey ≠ nkey →
        storeLookup st nsp sec = some { data := D, managed := true } →
        lookupA D okey = some v → lookupA D nkey = some w →
        Rename st (pathJoin [nsp, sec, okey]) (pathJoin [nsp, sec, nkey]) =
          .ok (storeSet st nsp sec
                { data := eraseA (insertA D nkey v) okey, managed := true }) ∧
        lookupA (eraseA (insertA D nkey v) okey) nkey = some v ∧
        lookupA (eraseA (insertA D nkey v) okey) okey = none) := by
  constructor
  · intro st name p D v hp hdir hst hkey
    refine ⟨?_, by rw [lookupA_insertA_self]⟩
    simp only [FileCreate, newFile, hp]
    simp [hdir, bGet, bget, bUpdate, hst, storeSet]
  · intro st nsp sec okey nkey D v w h1 h2 h3 h4 m1 m2 m3 m4 hkk hst hok hnk
    have ho := newSecretPath_pathJoin nsp sec okey h1 h2 h3 m1 m2 m3
    have hn := newSecretPath_pathJoin nsp sec nkey h1 h2 h4 m1 m2 m4
    have hst2 : lookupA st (nsp, sec) = some { data := D, managed := true } := hst
    refine ⟨?_, ?_, by rw [lookupA_eraseA_self]⟩
    · simp only [Rename, ho, hn]
      rw [if_neg (by simp)]
      simp [Open, FileCreate, newFile, ho, hn, bGet, bget, bUpdate,
        File.Close, File.Sync, File.validateRO, storeLookup, storeSet, hst2, hok,
        lookupA_insertA_self, insertA_insertA_self]
    · rw [lookupA_eraseA_ne _ (Ne.symm hkk), lookupA_insertA_self]

/-- Claim C1 (witness for the amended theorem): on a concrete store,
`FileCreate` on the existing key "k" succeeds and empties its value, and
`Rename` of "d/s/a" onto the existing key "d/s/b" succeeds, giving "b" the
source value `[1]` and removing "a". -/
theorem C1_witness :
    FileCreate [(("d", "s"), { data := [("a", [1]), ("b", [2])], managed := true })]
        "d/s/a" =
      .ok ({ spath := { ns := "d", secret := "s", key := "a", isDir := false },
             key := "a", value := [], data := [("a", []), ("b", [2])],
             readonly := false, closed := false, delete := false, pos := 0 },
           [(("d", "s"), { data := [("a", []), ("b", [2])], managed := true })]) ∧
    Rename [(("d", "s"), { data := [("a", [1]), ("b", [2])], managed := true })]
        "d/s/a" "d/s/b" =
      .ok [(("d", "s"), { data := [("b", [1])], managed := true })] :=
  have h1 := (C1_amended.1
    [(("d", "s"), { data := [("a", [1]), ("b", [2])], managed := true })] "d/s/a"
    { ns := "d", secret := "s", key := "a", isDir := false }
    [("a", [1]), ("b", [2])] [1] (by decide) (by decide) (by decide) (by decide)).1
  have h2 := (C1_amended.2
    [(("d", "s"), { data := [("a", [1]), ("b", [2])], managed := true })]
    "d" "s" "a" "b" [("a", [1]), ("b", [2])] [1] [2]
    (by decide) (by decide) (by decide) (by decide) (by decide) (by decide)
    (by decide) (by decide) (by decide) (by decide) (by decide) (by decide)).1
  ⟨h1, h2⟩

end Secfs
